import Mathlib

set_option maxRecDepth 40000
/-!
Verification of the MailMind caching/queueing core (content-script source).

The JavaScript source is shallowly embedded: pure functions become Lean
functions, the single-threaded cooperative (event-loop) execution of the
orchestrator and serialized task queue becomes a deterministic step
function on an explicit system state, where each step is one
run-to-completion turn of the JS event loop.  Maps become association
lists, promise identities become natural-number task ids, and the
external collaborators (backend HTTP fetch, chrome.storage, the DOM) are
explicit parameters or events.
-/

namespace MailMind

/-- Model of `Map.get` / property lookup: first binding for the key, if any. -/
def alookup {α : Type} : List (String × α) → String → Option α
  | [], _ => none
  | (k', v) :: rest, k => if k' = k then some v else alookup rest k

/-- Model of `Map.set` / property assignment: replace the first binding
for the key, or append a fresh binding. -/
def aset {α : Type} : List (String × α) → String → α → List (String × α)
  | [], k, v => [(k, v)]
  | (k', v') :: rest, k, v =>
    if k' = k then (k, v) :: rest else (k', v') :: aset rest k v

/-- Model of `Map.delete`: drop the bindings for the key (identical to
deleting the single binding whenever keys are unique, which the system
maintains). -/
def aerase {α : Type} (l : List (String × α)) (k : String) : List (String × α) :=
  l.filter (fun p => p.1 ≠ k)

/-- UTF-8 encoding of one character (what `TextEncoder` does per code point). -/
def utf8Char (c : Char) : List Nat :=
  let n := c.toNat
  if n < 0x80 then [n]
  else if n < 0x800 then
    [0xC0 ||| (n >>> 6), 0x80 ||| (n &&& 0x3F)]
  else if n < 0x10000 then
    [0xE0 ||| (n >>> 12), 0x80 ||| ((n >>> 6) &&& 0x3F), 0x80 ||| (n &&& 0x3F)]
  else
    [0xF0 ||| (n >>> 18), 0x80 ||| ((n >>> 12) &&& 0x3F),
     0x80 ||| ((n >>> 6) &&& 0x3F), 0x80 ||| (n &&& 0x3F)]

/-- Model of `new TextEncoder().encode(s)` as a byte list. -/
def utf8Bytes (s : String) : List Nat :=
  s.data.foldr (fun c acc => utf8Char c ++ acc) []

def w32 : Nat := 4294967296

/-- 32-bit right rotation. -/
def rotr32 (x n : Nat) : Nat := ((x >>> n) ||| (x <<< (32 - n))) % w32

/-- Three-way word xor, the combining shape of all four sigma functions. -/
def xor3 (a b c : Nat) : Nat := Nat.xor (Nat.xor a b) c

def shaCh (x y z : Nat) : Nat := Nat.xor (x &&& y) ((4294967295 - x) &&& z)

def shaMaj (x y z : Nat) : Nat := xor3 (x &&& y) (x &&& z) (y &&& z)

def bsig0 (x : Nat) : Nat := xor3 (rotr32 x 2) (rotr32 x 13) (rotr32 x 22)

def bsig1 (x : Nat) : Nat := xor3 (rotr32 x 6) (rotr32 x 11) (rotr32 x 25)

def ssig0 (x : Nat) : Nat := xor3 (rotr32 x 7) (rotr32 x 18) (x / 8)

def ssig1 (x : Nat) : Nat := xor3 (rotr32 x 17) (rotr32 x 19) (x / 1024)

/-- The 64 SHA-256 round constants of FIPS 180-4 (decimal). -/
def sha256K : List Nat :=
  [1116352408, 1899447441, 3049323471, 3921009573, 961987163, 1508970993,
   2453635748, 2870763221, 3624381080, 310598401, 607225278, 1426881987,
   1925078388, 2162078206, 2614888103, 3248222580, 3835390401, 4022224774,
   264347078, 604807628, 770255983, 1249150122, 1555081692, 1996064986,
   2554220882, 2821834349, 2952996808, 3210313671, 3336571891, 3584528711,
   113926993, 338241895, 666307205, 773529912, 1294757372, 1396182291,
   1695183700, 1986661051, 2177026350, 2456956037, 2730485921, 2820302411,
   3259730800, 3345764771, 3516065817, 3600352804, 4094571909, 275423344,
   430227734, 506948616, 659060556, 883997877, 958139571, 1322822218,
   1537002063, 1747873779, 1955562222, 2024104815, 2227730452, 2361852424,
   2428436474, 2756734187, 3204031479, 3329325298]

/-- The eight SHA-256 initial hash values of FIPS 180-4 (decimal). -/
def sha256H0 : List Nat :=
  [1779033703, 3144134277, 1013904242, 2773480762,
   1359893119, 2600822924, 528734635, 1541459225]

/-- Big-endian 8-byte encoding of the bit length. -/
def be8 (n : Nat) : List Nat :=
  [(n >>> 56) % 256, (n >>> 48) % 256, (n >>> 40) % 256, (n >>> 32) % 256,
   (n >>> 24) % 256, (n >>> 16) % 256, (n >>> 8) % 256, n % 256]

/-- Big-endian 4-byte encoding of one 32-bit word. -/
def be4 (n : Nat) : List Nat :=
  [(n >>> 24) % 256, (n >>> 16) % 256, (n >>> 8) % 256, n % 256]

/-- FIPS-180-4 padding: append 0x80, zero bytes up to 56 mod 64, then the
64-bit big-endian message bit length. -/
def padMessage (msg : List Nat) : List Nat :=
  msg ++ [0x80] ++ List.replicate ((119 - msg.length % 64) % 64) 0 ++ be8 (msg.length * 8)

/-- Group bytes into big-endian 32-bit words. -/
def bytesToWords : List Nat → List Nat
  | a :: b :: c :: d :: rest =>
    ((a <<< 24) ||| (b <<< 16) ||| (c <<< 8) ||| d) :: bytesToWords rest
  | _ => []

/-- Group a word list into 16-word blocks (structural recursion on a
fuel bound so the definition reduces in the kernel). -/
def wordsToBlocksFuel : Nat → List Nat → List (List Nat)
  | 0, _ => []
  | _, [] => []
  | fuel + 1, wrd :: rest =>
    (wrd :: rest.take 15) :: wordsToBlocksFuel fuel (rest.drop 15)

/-- Group a word list into 16-word blocks. -/
def wordsToBlocks (ws : List Nat) : List (List Nat) :=
  wordsToBlocksFuel ws.length ws

/-- Extend a 16-word block to the 64-word message schedule. -/
def extendSchedule : Nat → List Nat → List Nat
  | 0, acc => acc
  | n + 1, acc =>
    let t := acc.length
    let nw := (ssig1 (acc.getD (t - 2) 0) + acc.getD (t - 7) 0 +
               ssig0 (acc.getD (t - 15) 0) + acc.getD (t - 16) 0) % w32
    extendSchedule n (acc ++ [nw])

/-- One compression round on the state `[a, b, c, d, e, f, g, h]`. -/
def shaRound (st : List Nat) (k wrd : Nat) : List Nat :=
  let a := st.getD 0 0
  let b := st.getD 1 0
  let c := st.getD 2 0
  let d := st.getD 3 0
  let e := st.getD 4 0
  let f := st.getD 5 0
  let g := st.getD 6 0
  let h := st.getD 7 0
  let t1 := (h + bsig1 e + shaCh e f g + k + wrd) % w32
  let t2 := (bsig0 a + shaMaj a b c) % w32
  [(t1 + t2) % w32, a, b, c, (d + t1) % w32, e, f, g]

/-- Compress one 16-word block into the running hash value. -/
def processBlock (h : List Nat) (block : List Nat) : List Nat :=
  let sched := extendSchedule 48 block
  let st := (sha256K.zip sched).foldl (fun st kw => shaRound st kw.1 kw.2) h
  (h.zip st).map (fun p => (p.1 + p.2) % w32)

/-- SHA-256 digest of a byte list, as 32 bytes. -/
def sha256 (msg : List Nat) : List Nat :=
  let hf := (wordsToBlocks (bytesToWords (padMessage msg))).foldl processBlock sha256H0
  be4 (hf.getD 0 0) ++ be4 (hf.getD 1 0) ++ be4 (hf.getD 2 0) ++ be4 (hf.getD 3 0) ++
  be4 (hf.getD 4 0) ++ be4 (hf.getD 5 0) ++ be4 (hf.getD 6 0) ++ be4 (hf.getD 7 0)

/-- Lowercase hex digit, as produced by `Number.prototype.toString(16)`. -/
def hexDigit (n : Nat) : Char :=
  if n < 10 then Char.ofNat (48 + n) else Char.ofNat (87 + n)

/-- Encoding per `bytes[i].toString(16).padStart(2, '0')` for a byte
value `b < 256`: exactly two lowercase hex digits. -/
def byteToHex (b : Nat) : String :=
  String.mk [hexDigit ((b >>> 4) % 16), hexDigit (b % 16)]

/-- Source lines 1502-1512 (`computeSHA256Hex`): UTF-8 encode
(`input || ''` is the identity on strings), SHA-256 digest, then the
`hex += bytes[i].toString(16).padStart(2, '0')` accumulation loop. -/
def computeSHA256Hex (input : String) : String :=
  (sha256 (utf8Bytes input)).foldl (fun hex b => hex ++ byteToHex b) ""

/-! ### Content hasher (`computeSummaryId`, source lines 1450-1462)

The two DOM probes `getOpenMessageIdFromDOM` (lines 1464-1473) and
`extractOpenEmailTimeFromDOM` (lines 1475-1487) read the page-global
"currently open email view".  They are embedded as a snapshot of the
values they would return; both return `''` when the element is absent or
a DOM exception is thrown. -/
structure DOMSnapshot where
  /-- Value of `getOpenMessageIdFromDOM()`: the `data-message-id`
  attribute of the open message view, or `''` when unavailable. -/
  openMessageId : String
  /-- Value of `extractOpenEmailTimeFromDOM()`: the open email's
  displayed time, or `''` when unavailable. -/
  openTime : String

deriving DecidableEq, Repr

/-- Source lines 1450-1462.  `explicitId` is `Option String` (`undefined`
vs. a string; the `typeof` check excludes non-strings, which the
embedding's types exclude already).  `body.substring(0, 50)` is modeled
as the first 50 characters.  Note the source returns a non-empty
`explicitId` verbatim, with no prefix, and falls back to DOM state both
for the message id and for a missing `time`. -/
def computeSummaryId (dom : DOMSnapshot) (explicitId : Option String)
    (subject body time : String) : String :=
  -- `if (explicitId && typeof explicitId === 'string') return explicitId;`
  match explicitId with
  | some e =>
    if e = "" then computeSummaryIdNoExplicit dom subject body time
    else e
  | none => computeSummaryIdNoExplicit dom subject body time
where
  computeSummaryIdNoExplicit (dom : DOMSnapshot) (subject body time : String) : String :=
    -- `const mid = this.getOpenMessageIdFromDOM(); if (mid) return `mid:${mid}`;`
    if dom.openMessageId ≠ "" then "mid:" ++ dom.openMessageId
    else
      -- `const first50 = (body || '').substring(0, 50);`
      let first50 := String.mk (body.data.take 50)
      -- `const t = time || this.extractOpenEmailTimeFromDOM() || '';`
      let t := if time = "" then dom.openTime else time
      -- `const composite = `${subject || ''}|${t}|${first50}`;`
      let composite := subject ++ "|" ++ t ++ "|" ++ first50
      "hash:" ++ computeSHA256Hex composite

/-! ### Backend client (`callGeminiAPI`, source lines 3038-3071)

The network collaborator is embedded as the observable outcome of the
single `fetch` call: either the fetch rejected, or it produced a
response with an HTTP status together with the optional generated text
extracted by `data.candidates?.[0]?.content?.parts?.[0]?.text`
(`none` when any link of that optional chain is absent, subsuming a
body with no parsable content). -/
inductive FetchResult where
  /-- The `fetch` promise rejected (network failure); the message is the
  thrown error's message. -/
  | netError : String → FetchResult
  /-- The fetch resolved with the given HTTP status code and the
  optional extracted candidate text. -/
  | response : Nat → Option String → FetchResult

deriving DecidableEq, Repr

/-- Source lines 3038-3071.  `response.ok` is status 200-299; the
`!generatedText` guard rejects both an absent text and the empty
string; a present non-empty text is returned trimmed. -/
def callGeminiAPI : FetchResult → Except String String
  | FetchResult.netError m => Except.error m
  | FetchResult.response status text =>
    if ¬ (200 ≤ status ∧ status ≤ 299) then
      Except.error ("API error: " ++ toString status)
    else
      match text with
      | none => Except.error "No content generated"
      | some g =>
        if g = "" then Except.error "No content generated"
        else Except.ok g.trim

/-- The body of `callGeminiAPI` performs exactly one `fetch` (index 0 of
the fetch oracle) and contains no loop or retry: the paired count of
fetch invocations is always 1. -/
def callGeminiAPIFetchCount (fetchOracle : Nat → FetchResult) :
    Except String String × Nat :=
  (callGeminiAPI (fetchOracle 0), 1)

/-- Source lines 1433-1435 (`getCachedSummary`): `summaryCache.get(id)
|| null`.  The `||` coerces a stored empty string to `null`, so the
result is `some v` exactly for a stored non-empty `v`. -/
def getCachedSummary (cache : List (String × String)) (id : String) : Option String :=
  match alookup cache id with
  | some v => if v = "" then none else some v
  | none => none

/-- Source lines 1437-1448 (`setCachedSummary`): the in-memory map is
set first; then the whole slot object is re-read, extended with the
entry, and re-persisted.  A storage failure (`persistOk = false`) is
caught and swallowed, leaving the slot unchanged but the in-memory map
updated; the function never propagates an error. -/
def setCachedSummary (cache : List (String × String))
    (slot : Option (List (String × String))) (persistOk : Bool)
    (id v : String) : List (String × String) × Option (List (String × String)) :=
  let cache' := aset cache id v
  if persistOk then
    (cache', some (aset (slot.getD []) id v))
  else
    (cache', slot)

/-- Source lines 1344-1354 (`loadSummaryCache`): a missing slot yields
`{}` hence an empty map; a storage read failure is caught and also
yields an empty map; the function never propagates an error. -/
def loadSummaryCache (stored : Option (List (String × String)))
    (readOk : Bool) : List (String × String) :=
  if readOk then stored.getD [] else []

/-! ### Orchestrator and serialized task queue
(source lines 1365-1431, constructor lines 1263-1267)

JavaScript executes single-threaded with run-to-completion turns; the
system is therefore embedded as a deterministic step function over an
explicit state, with one step per event-loop turn:

* a `request` event is the resumption of one
  `generateEmailSummaryWithCacheQueue` invocation after its initial
  `await computeSummaryId(...)` — from there through the cache check,
  the in-flight check, `enqueueSummaryTask` (whose promise executor
  synchronously pushes the task and calls `processSummaryQueue`, which
  synchronously begins the task's `runFn` up to its first internal
  `await` when the queue is idle) and the `inFlightSummaries.set`, the
  source has no suspension point, so the whole segment is one atomic
  turn;
* a `complete` event is the settlement of the running task's backend
  call and the turns it triggers: `runFn` resumes (`setCachedSummary`
  on success), `processSummaryQueue` resolves or rejects the task's
  promise and in its `finally` clears the busy flag and synchronously
  starts the next queued task; then each caller awaiting the task
  promise resumes.  On success every awaiting caller returns the
  task's value.  On rejection the registering caller's inner `finally`
  (line 1397) deletes the in-flight entry and every awaiting caller —
  the registrar (line 1394) and each in-flight reuser (line 1382) —
  lands in the wrapper's outer `catch` (lines 1399-1403), which issues
  a direct, unqueued, uncached `_originalGenerateEmailSummary` backend
  call and returns that call's own result.  These per-caller fallback
  calls and the results they hand each caller are recorded in
  `fallbackCalls` and `delivered`; the event carries a fallback oracle
  `fb` giving the `i`-th awaiting caller's fallback outcome (the
  fallback calls' own latency is collapsed into the step, which no
  claim depends on).

Promise identities become task ids (`tid`), allocated in creation
order.  The trace records the queue runner's observable actions: the
start of a task's `runFn` (= the start of its queued backend call),
its settlement, and any `delay(ms)` the runner would insert (it
inserts none; `TEv.delayEv` exists so that the absence is
expressible).  Fallback calls are not runner actions and are recorded
separately. -/
deriving instance DecidableEq for Except

structure QTask where
  /-- Promise identity of `enqueueSummaryTask`'s returned promise. -/
  tid : Nat
  /-- The summary id (`{ id, runFn, resolve, reject }`'s `id`). -/
  id : String

deriving DecidableEq, Repr

inductive TEv where
  /-- The queue runner begins `task.runFn()` for this tid. -/
  | start : Nat → TEv
  /-- The task settled (`true` = resolved, `false` = rejected). -/
  | settle : Nat → Bool → TEv
  /-- An inter-task `delay(ms)` inserted by the runner. -/
  | delayEv : Nat → TEv

deriving DecidableEq, Repr

/-- What one `generateEmailSummaryWithCacheQueue` invocation did in its
arrival turn: returned a cached value, or awaits the given pending task. -/
inductive Outcome where
  | cachedHit : String → Outcome
  | awaits : Nat → Outcome

deriving DecidableEq, Repr

structure Sys where
  /-- `this.summaryCache` (in-memory `Map`). -/
  summaryCache : List (String × String)
  /-- The persisted object under `this.summaryCacheStorageKey`. -/
  storageSlot : Option (List (String × String))
  /-- `this.inFlightSummaries` (`Map` id → pending promise). -/
  inFlightSummaries : List (String × Nat)
  /-- `this.summaryQueue`. -/
  summaryQueue : List QTask
  /-- `this.isProcessingSummaryQueue`. -/
  isProcessingSummaryQueue : Bool
  /-- The task whose `runFn` the runner is currently awaiting (the
  local `task` inside `processSummaryQueue`). -/
  running : Option QTask
  /-- Next fresh promise identity. -/
  nextTid : Nat
  /-- Settlements of the task promises so far, by tid. -/
  settled : List (Nat × Except String String)
  /-- Observable queue-runner actions, in order. -/
  trace : List TEv
  /-- Arrival outcomes of the `request` events, in order. -/
  log : List (String × Outcome)
  /-- Final results handed to the awaiting callers, in order: the
  task's value on success, each caller's own fallback result on task
  failure. -/
  delivered : List (String × Except String String)
  /-- The direct, unqueued, uncached backend calls issued by the
  wrapper's `catch` (lines 1399-1403), as (failed task's tid, that
  fallback call's result), one per awaiting caller. -/
  fallbackCalls : List (Nat × Except String String)

deriving DecidableEq, Repr

/-- Source lines 1413-1418: the synchronous prefix of
`processSummaryQueue` — return if busy, shift the queue, return if
empty, set the busy flag and begin the task's `runFn`. -/
def processSummaryQueue (s : Sys) : Sys :=
  if s.isProcessingSummaryQueue then s
  else
    match s.summaryQueue with
    | [] => s
    | task :: rest =>
      { s with
        summaryQueue := rest,
        isProcessingSummaryQueue := true,
        running := some task,
        trace := s.trace ++ [TEv.start task.tid] }

/-- Source lines 1406-1411 (`enqueueSummaryTask`): the promise executor
synchronously pushes the task and invokes `processSummaryQueue`. -/
def enqueueSummaryTask (s : Sys) (task : QTask) : Sys :=
  processSummaryQueue { s with summaryQueue := s.summaryQueue ++ [task] }

/-- Source lines 1374-1398: one arrival turn of
`generateEmailSummaryWithCacheQueue` for the computed id — cache check
(`if (cached) return cached`), in-flight check (`await` the existing
promise), else enqueue a new task and register it in-flight. -/
def requestStep (s : Sys) (id : String) : Sys :=
  match getCachedSummary s.summaryCache id with
  | some v => { s with log := s.log ++ [(id, Outcome.cachedHit v)] }
  | none =>
    match alookup s.inFlightSummaries id with
    | some tid => { s with log := s.log ++ [(id, Outcome.awaits tid)] }
    | none =>
      let task : QTask := ⟨s.nextTid, id⟩
      let s1 := enqueueSummaryTask s task
      { s1 with
        inFlightSummaries := aset s1.inFlightSummaries id task.tid,
        nextTid := s1.nextTid + 1,
        log := s1.log ++ [(id, Outcome.awaits task.tid)] }

def exceptOk : Except String String → Bool
  | Except.ok _ => true
  | Except.error _ => false

/-- The callers currently awaiting the task promise with tid `t`: the
arrival log entries whose outcome was `awaits t`, in arrival order
(the registrar at line 1392-1394 and every in-flight reuser at
line 1382). -/
def awaitingCallers (log : List (String × Outcome)) (t : Nat) : List String :=
  (log.filter (fun e => decide (e.2 = Outcome.awaits t))).map Prod.fst

/-- What the awaiting callers of tid `t` receive when its task settles
with `r`: on success, every caller returns the task's value (lines
1382, 1394); on rejection, each caller's outer `catch` (lines
1399-1403) returns its own direct fallback call's result `fb i`. -/
def deliveredFor (log : List (String × Outcome)) (t : Nat)
    (r : Except String String) (fb : Nat → Except String String) :
    List (String × Except String String) :=
  match r with
  | Except.ok v => (awaitingCallers log t).map (fun k => (k, Except.ok v))
  | Except.error _ => (awaitingCallers log t).enum.map (fun q => (q.2, fb q.1))

/-- The direct uncached backend calls triggered by the settling of tid
`t`: none on success; on rejection, one per awaiting caller (the
`_originalGenerateEmailSummary` call at line 1402). -/
def fallbackFor (log : List (String × Outcome)) (t : Nat)
    (r : Except String String) (fb : Nat → Except String String) :
    List (Nat × Except String String) :=
  match r with
  | Except.ok _ => []
  | Except.error _ => (awaitingCallers log t).enum.map (fun q => (t, fb q.1))

/-- The turns triggered by the running task's backend call settling
with result `r`: on success `runFn` caches the summary
(`setCachedSummary`, whose persistence outcome is `persistOk`) and the
runner resolves the task's promise, on failure the runner rejects it
(lines 1419-1423); the `finally` clears the busy flag and, if tasks
remain, synchronously starts the next one (lines 1424-1430); the
registering caller's inner `finally` deletes the in-flight entry
(line 1397); then each awaiting caller receives its result — the
task's value on success, or, on rejection, the result of its own
direct uncached fallback backend call issued by the wrapper's `catch`
(lines 1399-1403), given by the oracle `fb` and recorded in
`fallbackCalls`.  Fallback results are never cached (line 1402
bypasses `setCachedSummary`).  With no running task the event is a
no-op. -/
def completeStep (s : Sys) (r : Except String String) (persistOk : Bool)
    (fb : Nat → Except String String) : Sys :=
  match s.running with
  | none => s
  | some task =>
    let cs :=
      match r with
      | Except.ok v => setCachedSummary s.summaryCache s.storageSlot persistOk task.id v
      | Except.error _ => (s.summaryCache, s.storageSlot)
    let s1 : Sys :=
      { s with
        summaryCache := cs.1,
        storageSlot := cs.2,
        settled := s.settled ++ [(task.tid, r)],
        delivered := s.delivered ++ deliveredFor s.log task.tid r fb,
        fallbackCalls := s.fallbackCalls ++ fallbackFor s.log task.tid r fb,
        trace := s.trace ++ [TEv.settle task.tid (exceptOk r)],
        running := none,
        isProcessingSummaryQueue := false }
    let s2 := if s1.summaryQueue.length > 0 then processSummaryQueue s1 else s1
    { s2 with inFlightSummaries := aerase s2.inFlightSummaries task.id }

inductive Ev where
  /-- A summarize invocation arrives for the given computed id. -/
  | request : String → Ev
  /-- The running task's backend call settles; the flag is whether the
  subsequent cache persistence succeeds, and the oracle gives the
  outcome of the `i`-th awaiting caller's direct fallback backend call
  should the task have failed. -/
  | complete : Except String String → Bool → (Nat → Except String String) → Ev

def stepEv (s : Sys) : Ev → Sys
  | Ev.request id => requestStep s id
  | Ev.complete r p fb => completeStep s r p fb

def runEvents (s : Sys) (es : List Ev) : Sys := es.foldl stepEv s

/-- Constructor state (source lines 1263-1267) after `init` ran
`loadSummaryCache` (line 1285): empty in-flight map, empty queue, idle
runner, cache loaded from the given storage contents. -/
def initSys (stored : Option (List (String × String))) (readOk : Bool) : Sys :=
  { summaryCache := loadSummaryCache stored readOk,
    storageSlot := stored,
    inFlightSummaries := [],
    summaryQueue := [],
    isProcessingSummaryQueue := false,
    running := none,
    nextTid := 0,
    settled := [],
    trace := [],
    log := [],
    delivered := [],
    fallbackCalls := [] }

/-! ### Multi-email loop (`generateMultiEmailSummaries`, source lines 1839-1883) -/
inductive MEv where
  /-- The queued backend call made for the email at this index (the
  wrapped `generateEmailSummary`'s enqueued task, given the preceding
  cache miss). -/
  | apiCall : Nat → MEv
  /-- The direct uncached fallback backend call the wrapper's `catch`
  (lines 1399-1403) issues immediately when the queued task for this
  index fails. -/
  | fallbackCall : Nat → MEv
  /-- The loop awaits `this.delay(ms)`. -/
  | delayMs : Nat → MEv

deriving DecidableEq, Repr

structure MEmail where
  /-- `email.id` (a full cache key from `computeRowEmailId`, if set). -/
  id : Option String
  /-- `email.fullContent || email.preview`. -/
  content : String
  subject : String
  sender : String
  time : String

deriving DecidableEq, Repr

/-- Source lines 1839-1883, with the UI updates (no-ops on the model
state) omitted.  Per email: a cache probe (`email.id ?
getCachedSummary(email.id) : null`); a hit pushes the cached summary
and `continue`s, skipping both the API call and the delay.  Otherwise
the wrapped `generateEmailSummary` runs: its enqueued task's backend
call (outcome oracle `gen`, indexed by email position) either succeeds
— the wrapper caches the summary under `email.id` and returns it — or
fails, in which case the wrapper's `catch` (lines 1399-1403)
immediately issues a direct uncached fallback backend call (outcome
oracle `fbk`); a successful fallback summary is returned but never
cached, and a failed one rejects into the loop's own `catch` (lines
1865-1870), which converts it to an
`'Error generating summary: ' + error.message` summary.  Either way
the loop then awaits `delay(500)` before the next iteration. -/
def generateMultiEmailSummaries (cache : List (String × String))
    (gen fbk : Nat → Except String String) :
    Nat → List MEmail → List String × List MEv
  | _, [] => ([], [])
  | i, e :: rest =>
    let cached :=
      match e.id with
      | some id => getCachedSummary cache id
      | none => none
    match cached with
    | some c =>
      let pr := generateMultiEmailSummaries cache gen fbk (i + 1) rest
      (c :: pr.1, pr.2)
    | none =>
      match gen i with
      | Except.ok sm =>
        let cache' :=
          match e.id with
          | some id => aset cache id sm
          | none => cache
        let pr := generateMultiEmailSummaries cache' gen fbk (i + 1) rest
        (sm :: pr.1, MEv.apiCall i :: MEv.delayMs 500 :: pr.2)
      | Except.error _ =>
        let summary :=
          match fbk i with
          | Except.ok sm => sm
          | Except.error msg => "Error generating summary: " ++ msg
        let pr := generateMultiEmailSummaries cache gen fbk (i + 1) rest
        (summary :: pr.1,
         MEv.apiCall i :: MEv.fallbackCall i :: MEv.delayMs 500 :: pr.2)

/-- The tids of the `start` events of a trace, in order: one entry per
backend call the queue runner has begun. -/
def startTids : List TEv → List Nat
  | [] => []
  | TEv.start t :: rest => t :: startTids rest
  | TEv.settle _ _ :: rest => startTids rest
  | TEv.delayEv _ :: rest => startTids rest

/-- Well-formed runner traces: `start` and `settle` events strictly
alternate (each settle carries the tid of the immediately preceding
start), and the optional index is the tid of a start not yet settled. -/
inductive Alt : List TEv → Option Nat → Prop
  | nil : Alt [] none
  | push_start (l : List TEv) (t : Nat) :
      Alt l none → Alt (l ++ [TEv.start t]) (some t)
  | push_settle (l : List TEv) (t : Nat) (ok : Bool) :
      Alt l (some t) → Alt (l ++ [TEv.settle t ok]) none

/-- Outcome of `runFn`'s cache write depending on the backend result. -/
def applyResult (cache : List (String × String))
    (slot : Option (List (String × String))) (persistOk : Bool) (id : String) :
    Except String String → List (String × String) × Option (List (String × String))
  | Except.ok v => setCachedSummary cache slot persistOk id v
  | Except.error _ => (cache, slot)

/-! ### The inductive system invariant -/
structure Inv (s : Sys) : Prop where
  /-- The busy flag is set exactly while a task's `runFn` is awaited. -/
  flag : s.isProcessingSummaryQueue = s.running.isSome
  /-- The runner is never idle while tasks are queued. -/
  idle : s.isProcessingSummaryQueue = false → s.summaryQueue = []
  /-- FIFO: the started tids followed by the queued tids are exactly the
  created tids in creation order. -/
  fifo : List.range s.nextTid = startTids s.trace ++ s.summaryQueue.map QTask.tid
  /-- The runner trace alternates start/settle. -/
  alt : Alt s.trace (Option.map QTask.tid s.running)
  /-- Settled tids, then the running tid, are exactly the started tids. -/
  settledTrace :
    s.settled.map Prod.fst ++ (Option.map QTask.tid s.running).toList = startTids s.trace
  /-- At most one in-flight registration per key. -/
  inflightNodup : (s.inFlightSummaries.map Prod.fst).Nodup
  /-- Every in-flight registration was handed to some earlier caller. -/
  inflightLogged : ∀ k t, alookup s.inFlightSummaries k = some t →
    (k, Outcome.awaits t) ∈ s.log
  /-- Every queued or running task is registered in-flight under its id. -/
  tasksRegistered : ∀ task : QTask, (task ∈ s.summaryQueue ∨ s.running = some task) →
    alookup s.inFlightSummaries task.id = some task.tid

/-! ## Theorems -/

theorem alookup_aset_self {α : Type} (l : List (String × α)) (k : String) (v : α) :
    alookup (aset l k v) k = some v := by
  induction l with
  | nil => simp [aset, alookup]
  | cons p rest ih =>
    obtain ⟨pk, pv⟩ := p
    by_cases h : pk = k
    · simp [aset, h, alookup]
    · simp [aset, h, alookup, ih]

theorem alookup_aset_ne {α : Type} (l : List (String × α)) (k k' : String) (v : α)
    (h : k' ≠ k) : alookup (aset l k v) k' = alookup l k' := by
  induction l with
  | nil => simp [aset, alookup, Ne.symm h]
  | cons p rest ih =>
    obtain ⟨pk, pv⟩ := p
    by_cases hp : pk = k
    · subst hp
      simp [aset, alookup, Ne.symm h]
    · by_cases hp' : pk = k'
      · simp [aset, hp, alookup, hp', h]
      · simp [aset, hp, alookup, hp', ih]

theorem alookup_aerase_self {α : Type} (l : List (String × α)) (k : String) :
    alookup (aerase l k) k = none := by
  induction l with
  | nil => simp [aerase, alookup]
  | cons p rest ih =>
    obtain ⟨pk, pv⟩ := p
    by_cases h : pk = k
    · simp only [aerase] at ih
      simpa [aerase, h] using ih
    · simp only [aerase, List.filter_cons] at ih ⊢
      simpa [h, alookup] using ih

theorem alookup_aerase_ne {α : Type} (l : List (String × α)) (k k' : String)
    (h : k' ≠ k) : alookup (aerase l k) k' = alookup l k' := by
  induction l with
  | nil => simp [aerase, alookup]
  | cons p rest ih =>
    obtain ⟨pk, pv⟩ := p
    simp only [aerase, List.filter_cons] at ih ⊢
    by_cases hp : pk = k
    · subst hp
      simpa [alookup, Ne.symm h] using ih
    · by_cases hp' : pk = k'
      · simp [alookup, hp, hp', h, ih]
      · simpa [alookup, hp, hp', h] using ih

theorem alookup_none_not_memKeys {α : Type} (l : List (String × α)) (k : String)
    (h : alookup l k = none) : k ∉ l.map Prod.fst := by
  induction l with
  | nil => simp
  | cons p rest ih =>
    obtain ⟨pk, pv⟩ := p
    by_cases hp : pk = k
    · simp [alookup, hp] at h
    · simp only [alookup, hp, if_false] at h
      simp only [List.map_cons, List.mem_cons]
      push_neg
      exact ⟨Ne.symm hp, ih h⟩

theorem keys_aset_of_alookup_none {α : Type} (l : List (String × α)) (k : String) (v : α)
    (h : alookup l k = none) :
    (aset l k v).map Prod.fst = l.map Prod.fst ++ [k] := by
  induction l with
  | nil => simp [aset]
  | cons p rest ih =>
    obtain ⟨pk, pv⟩ := p
    by_cases hp : pk = k
    · simp [alookup, hp] at h
    · simp only [alookup, hp, if_false] at h
      simp [aset, hp, ih h]

theorem keys_aerase_sublist {α : Type} (l : List (String × α)) (k : String) :
    ((aerase l k).map Prod.fst).Sublist (l.map Prod.fst) :=
  List.Sublist.map Prod.fst (List.filter_sublist l)

/-- Association-list membership is functional on lists with unique keys. -/
theorem mem_assoc_functional {β α : Type} (l : List (β × α))
    (hnd : (l.map Prod.fst).Nodup) (k : β) (v1 v2 : α)
    (h1 : (k, v1) ∈ l) (h2 : (k, v2) ∈ l) : v1 = v2 := by
  induction l with
  | nil => simp at h1
  | cons p rest ih =>
    obtain ⟨pk, pv⟩ := p
    simp only [List.map_cons, List.nodup_cons] at hnd
    rcases List.mem_cons.mp h1 with h1 | h1 <;>
      rcases List.mem_cons.mp h2 with h2 | h2
    · rw [← h2] at h1
      exact congrArg Prod.snd h1
    · exfalso
      apply hnd.1
      have hk : pk = k := (congrArg Prod.fst h1).symm
      rw [hk]
      exact List.mem_map_of_mem Prod.fst h2
    · exfalso
      apply hnd.1
      have hk : pk = k := (congrArg Prod.fst h2).symm
      rw [hk]
      exact List.mem_map_of_mem Prod.fst h1
    · exact ih hnd.2 h1 h2

theorem mem_of_alookup_eq_some {α : Type} (l : List (String × α)) (k : String) (v : α)
    (h : alookup l k = some v) : (k, v) ∈ l := by
  induction l with
  | nil => simp [alookup] at h
  | cons p rest ih =>
    obtain ⟨pk, pv⟩ := p
    by_cases hp : pk = k
    · simp only [alookup, hp, if_true, Option.some.injEq] at h
      rw [← hp, ← h]
      exact List.mem_cons_self _ _
    · simp only [alookup, hp, if_false] at h
      exact List.mem_cons_of_mem _ (ih h)

theorem sha256_length (msg : List Nat) : (sha256 msg).length = 32 := by
  rw [sha256]
  simp only [be4, List.length_append, List.length_cons, List.length_nil]

theorem byteToHex_length (b : Nat) : (byteToHex b).length = 2 := by
  simp [byteToHex, String.length]

theorem hexFold_length (l : List Nat) (acc : String) :
    (l.foldl (fun hex b => hex ++ byteToHex b) acc).length = acc.length + 2 * l.length := by
  induction l generalizing acc with
  | nil => simp
  | cons b rest ih =>
    simp only [List.foldl_cons, ih, String.length_append, byteToHex_length, List.length_cons]
    omega

/-- The hex digest always has 64 characters. -/
theorem computeSHA256Hex_length (input : String) : (computeSHA256Hex input).length = 64 := by
  rw [computeSHA256Hex, hexFold_length, sha256_length]
  rfl

theorem startTids_append (l1 l2 : List TEv) :
    startTids (l1 ++ l2) = startTids l1 ++ startTids l2 := by
  induction l1 with
  | nil => simp [startTids]
  | cons e rest ih => cases e <;> simp [startTids, ih]

/-- In an alternating trace, a decomposition after a `start a` either
contains the matching settle later in the remainder, or `a` is the
still-running tid. -/
theorem alt_open (l : List TEv) (r : Option Nat) (halt : Alt l r) :
    ∀ u a v, l = u ++ TEv.start a :: v →
      (∃ ok, TEv.settle a ok ∈ v) ∨ r = some a := by
  induction halt with
  | nil =>
    intro u a v h
    exact absurd h (by simp)
  | push_start l t hprev ih =>
    intro u a v h
    rcases List.eq_nil_or_concat v with hv | ⟨v', x, hv⟩
    · subst hv
      have h2 : l ++ [TEv.start t] = u ++ [TEv.start a] := by simpa using h
      obtain ⟨-, hx⟩ := List.append_inj' h2 (by simp)
      have : t = a := by simpa using hx
      exact Or.inr (by rw [this])
    · subst hv
      have h2 : l ++ [TEv.start t] = (u ++ TEv.start a :: v') ++ [x] := by
        simpa using h
      obtain ⟨hl, -⟩ := List.append_inj' h2 (by simp)
      rcases ih u a v' hl with ⟨ok, hok⟩ | hcontra
      · exact Or.inl ⟨ok, by simp [hok]⟩
      · simp at hcontra
  | push_settle l t ok hprev ih =>
    intro u a v h
    rcases List.eq_nil_or_concat v with hv | ⟨v', x, hv⟩
    · subst hv
      have h2 : l ++ [TEv.settle t ok] = u ++ [TEv.start a] := by simpa using h
      obtain ⟨-, hx⟩ := List.append_inj' h2 (by simp)
      simp at hx
    · subst hv
      have h2 : l ++ [TEv.settle t ok] = (u ++ TEv.start a :: v') ++ [x] := by
        simpa using h
      obtain ⟨hl, hx⟩ := List.append_inj' h2 (by simp)
      have hx' : x = TEv.settle t ok := by simpa using hx.symm
      rcases ih u a v' hl with ⟨ok', hok⟩ | hrun
      · exact Or.inl ⟨ok', by simp [hok]⟩
      · have : t = a := by simpa using hrun
        subst this
        exact Or.inl ⟨ok, by simp [hx']⟩

/-- In an alternating trace, between any two `start` events the first
one's `settle` occurs: backend call N+1 never begins before call N has
settled. -/
theorem alt_settle_between (l : List TEv) (r : Option Nat) (halt : Alt l r) :
    ∀ u a v b w, l = u ++ TEv.start a :: v ++ TEv.start b :: w →
      ∃ ok, TEv.settle a ok ∈ v := by
  induction halt with
  | nil =>
    intro u a v b w h
    exact absurd h (by simp)
  | push_start l t hprev ih =>
    intro u a v b w h
    rcases List.eq_nil_or_concat w with hw | ⟨w', x, hw⟩
    · subst hw
      have h2 : l ++ [TEv.start t] = (u ++ TEv.start a :: v) ++ [TEv.start b] := by
        simpa using h
      obtain ⟨hl, -⟩ := List.append_inj' h2 (by simp)
      rcases alt_open l none hprev u a v hl with hok | hcontra
      · exact hok
      · simp at hcontra
    · subst hw
      have h2 : l ++ [TEv.start t] = (u ++ TEv.start a :: v ++ TEv.start b :: w') ++ [x] := by
        rw [h]
        simp
      obtain ⟨hl, -⟩ := List.append_inj' h2 (by simp)
      exact ih u a v b w' hl
  | push_settle l t ok hprev ih =>
    intro u a v b w h
    rcases List.eq_nil_or_concat w with hw | ⟨w', x, hw⟩
    · subst hw
      have h2 : l ++ [TEv.settle t ok] = (u ++ TEv.start a :: v) ++ [TEv.start b] := by
        simpa using h
      obtain ⟨-, hx⟩ := List.append_inj' h2 (by simp)
      simp at hx
    · subst hw
      have h2 : l ++ [TEv.settle t ok] = (u ++ TEv.start a :: v ++ TEv.start b :: w') ++ [x] := by
        rw [h]
        simp
      obtain ⟨hl, -⟩ := List.append_inj' h2 (by simp)
      exact ih u a v b w' hl

/-! ### Step characterization lemmas -/
theorem processSummaryQueue_nextTid (s : Sys) :
    (processSummaryQueue s).nextTid = s.nextTid := by
  rcases hq : s.summaryQueue with _ | ⟨t, rest⟩ <;>
    by_cases hb : s.isProcessingSummaryQueue <;>
    simp [processSummaryQueue, hq, hb]

theorem processSummaryQueue_log (s : Sys) :
    (processSummaryQueue s).log = s.log := by
  rcases hq : s.summaryQueue with _ | ⟨t, rest⟩ <;>
    by_cases hb : s.isProcessingSummaryQueue <;>
    simp [processSummaryQueue, hq, hb]

theorem requestStep_cacheHit (s : Sys) (k v : String)
    (hc : getCachedSummary s.summaryCache k = some v) :
    requestStep s k = { s with log := s.log ++ [(k, Outcome.cachedHit v)] } := by
  simp [requestStep, hc]

theorem requestStep_inFlight (s : Sys) (k : String) (t : Nat)
    (hc : getCachedSummary s.summaryCache k = none)
    (hi : alookup s.inFlightSummaries k = some t) :
    requestStep s k = { s with log := s.log ++ [(k, Outcome.awaits t)] } := by
  simp [requestStep, hc, hi]

theorem requestStep_enqueue_busy (s : Sys) (k : String)
    (hc : getCachedSummary s.summaryCache k = none)
    (hi : alookup s.inFlightSummaries k = none)
    (hb : s.isProcessingSummaryQueue = true) :
    requestStep s k =
      { s with
        summaryQueue := s.summaryQueue ++ [⟨s.nextTid, k⟩],
        inFlightSummaries := aset s.inFlightSummaries k s.nextTid,
        nextTid := s.nextTid + 1,
        log := s.log ++ [(k, Outcome.awaits s.nextTid)] } := by
  simp [requestStep, hc, hi, enqueueSummaryTask, processSummaryQueue, hb]

theorem requestStep_enqueue_idle (s : Sys) (k : String)
    (hc : getCachedSummary s.summaryCache k = none)
    (hi : alookup s.inFlightSummaries k = none)
    (hb : s.isProcessingSummaryQueue = false)
    (hq : s.summaryQueue = []) :
    requestStep s k =
      { s with
        summaryQueue := [],
        isProcessingSummaryQueue := true,
        running := some ⟨s.nextTid, k⟩,
        trace := s.trace ++ [TEv.start s.nextTid],
        inFlightSummaries := aset s.inFlightSummaries k s.nextTid,
        nextTid := s.nextTid + 1,
        log := s.log ++ [(k, Outcome.awaits s.nextTid)] } := by
  simp [requestStep, hc, hi, enqueueSummaryTask, processSummaryQueue, hb, hq]

theorem completeStep_idle (s : Sys) (r : Except String String) (p : Bool)
    (fb : Nat → Except String String)
    (h : s.running = none) : completeStep s r p fb = s := by
  simp [completeStep, h]

theorem completeStep_emptyQ (s : Sys) (task : QTask) (r : Except String String) (p : Bool)
    (fb : Nat → Except String String)
    (hr : s.running = some task) (hq : s.summaryQueue = []) :
    completeStep s r p fb =
      { s with
        summaryCache := (applyResult s.summaryCache s.storageSlot p task.id r).1,
        storageSlot := (applyResult s.summaryCache s.storageSlot p task.id r).2,
        settled := s.settled ++ [(task.tid, r)],
        delivered := s.delivered ++ deliveredFor s.log task.tid r fb,
        fallbackCalls := s.fallbackCalls ++ fallbackFor s.log task.tid r fb,
        trace := s.trace ++ [TEv.settle task.tid (exceptOk r)],
        running := none,
        isProcessingSummaryQueue := false,
        inFlightSummaries := aerase s.inFlightSummaries task.id } := by
  cases r <;> simp [completeStep, hr, hq, applyResult]

theorem completeStep_nextQ (s : Sys) (task h : QTask) (rest : List QTask)
    (r : Except String String) (p : Bool) (fb : Nat → Except String String)
    (hr : s.running = some task) (hq : s.summaryQueue = h :: rest) :
    completeStep s r p fb =
      { s with
        summaryCache := (applyResult s.summaryCache s.storageSlot p task.id r).1,
        storageSlot := (applyResult s.summaryCache s.storageSlot p task.id r).2,
        settled := s.settled ++ [(task.tid, r)],
        delivered := s.delivered ++ deliveredFor s.log task.tid r fb,
        fallbackCalls := s.fallbackCalls ++ fallbackFor s.log task.tid r fb,
        trace := s.trace ++ [TEv.settle task.tid (exceptOk r), TEv.start h.tid],
        running := some h,
        isProcessingSummaryQueue := true,
        summaryQueue := rest,
        inFlightSummaries := aerase s.inFlightSummaries task.id } := by
  cases r <;> simp [completeStep, hr, hq, applyResult, processSummaryQueue]

theorem inv_initSys (stored : Option (List (String × String))) (readOk : Bool) :
    Inv (initSys stored readOk) := by
  refine ⟨rfl, fun _ => rfl, rfl, Alt.nil, rfl, List.nodup_nil, ?_, ?_⟩
  · intro k t h
    simp [initSys, alookup] at h
  · intro task h
    simp [initSys] at h

theorem inv_requestStep (s : Sys) (k : String) (hinv : Inv s) : Inv (requestStep s k) := by
  rcases hc : getCachedSummary s.summaryCache k with _ | v
  case some =>
    rw [requestStep_cacheHit s k v hc]
    refine ⟨hinv.flag, hinv.idle, hinv.fifo, hinv.alt, hinv.settledTrace,
      hinv.inflightNodup, ?_, hinv.tasksRegistered⟩
    intro k' t' h
    exact List.mem_append_left _ (hinv.inflightLogged k' t' h)
  case none =>
  rcases hi : alookup s.inFlightSummaries k with _ | t
  case some =>
    rw [requestStep_inFlight s k t hc hi]
    refine ⟨hinv.flag, hinv.idle, hinv.fifo, hinv.alt, hinv.settledTrace,
      hinv.inflightNodup, ?_, hinv.tasksRegistered⟩
    intro k' t' h
    exact List.mem_append_left _ (hinv.inflightLogged k' t' h)
  case none =>
  have hNodup : ((aset s.inFlightSummaries k s.nextTid).map Prod.fst).Nodup := by
    rw [keys_aset_of_alookup_none _ _ _ hi]
    refine List.nodup_append.mpr ⟨hinv.inflightNodup, List.nodup_singleton _, ?_⟩
    intro x hx hmem
    simp only [List.mem_singleton] at hmem
    subst hmem
    exact (alookup_none_not_memKeys _ _ hi) hx
  have hLogged : ∀ k' t', alookup (aset s.inFlightSummaries k s.nextTid) k' = some t' →
      (k', Outcome.awaits t') ∈ s.log ++ [(k, Outcome.awaits s.nextTid)] := by
    intro k' t' h
    by_cases hk : k' = k
    · subst hk
      rw [alookup_aset_self] at h
      obtain rfl : s.nextTid = t' := by simpa using h
      exact List.mem_append_right _ (by simp)
    · rw [alookup_aset_ne _ _ _ _ hk] at h
      exact List.mem_append_left _ (hinv.inflightLogged k' t' h)
  by_cases hb : s.isProcessingSummaryQueue = true
  · rw [requestStep_enqueue_busy s k hc hi hb]
    refine ⟨hinv.flag, ?_, ?_, hinv.alt, hinv.settledTrace, hNodup, hLogged, ?_⟩
    · intro hfalse
      rw [hb] at hfalse
      cases hfalse
    · rw [List.range_succ, hinv.fifo]
      simp
    · intro task htask
      rcases htask with htask | htask
      · rcases List.mem_append.mp htask with htask | htask
        · have hold := hinv.tasksRegistered task (Or.inl htask)
          have hne : task.id ≠ k := by
            intro he
            rw [he, hi] at hold
            cases hold
          rw [alookup_aset_ne _ _ _ _ hne]
          exact hold
        · simp only [List.mem_singleton] at htask
          subst htask
          simpa using alookup_aset_self s.inFlightSummaries k s.nextTid
      · have hold := hinv.tasksRegistered task (Or.inr htask)
        have hne : task.id ≠ k := by
          intro he
          rw [he, hi] at hold
          cases hold
        rw [alookup_aset_ne _ _ _ _ hne]
        exact hold
  · have hbf : s.isProcessingSummaryQueue = false := by
      cases hbv : s.isProcessingSummaryQueue
      · rfl
      · exact absurd hbv hb
    have hq : s.summaryQueue = [] := hinv.idle hbf
    have hrun : s.running = none := by
      have := hinv.flag
      rw [hbf] at this
      cases hrv : s.running
      · rfl
      · rw [hrv] at this
        cases this
    rw [requestStep_enqueue_idle s k hc hi hbf hq]
    refine ⟨rfl, ?_, ?_, ?_, ?_, hNodup, hLogged, ?_⟩
    · intro hfalse
      cases hfalse
    · rw [List.range_succ, hinv.fifo, hq, startTids_append]
      simp [startTids]
    · have halt : Alt s.trace none := by
        have := hinv.alt
        rw [hrun] at this
        exact this
      simpa using Alt.push_start s.trace s.nextTid halt
    · have := hinv.settledTrace
      rw [hrun] at this
      simp only [Option.map_none', Option.toList_none, List.append_nil] at this
      rw [startTids_append]
      simp [startTids, this]
    · intro task htask
      rcases htask with htask | htask
      · simp at htask
      · simp only [Option.some.injEq] at htask
        subst htask
        simpa using alookup_aset_self s.inFlightSummaries k s.nextTid

theorem inv_completeStep (s : Sys) (r : Except String String) (p : Bool)
    (fb : Nat → Except String String)
    (hinv : Inv s) : Inv (completeStep s r p fb) := by
  rcases hr : s.running with _ | task
  · rw [completeStep_idle s r p fb hr]
    exact hinv
  have hLogged : ∀ k' t', alookup (aerase s.inFlightSummaries task.id) k' = some t' →
      (k', Outcome.awaits t') ∈ s.log := by
    intro k' t' h
    by_cases hk : k' = task.id
    · rw [hk, alookup_aerase_self] at h
      cases h
    · rw [alookup_aerase_ne _ _ _ hk] at h
      exact hinv.inflightLogged k' t' h
  have hNodup : ((aerase s.inFlightSummaries task.id).map Prod.fst).Nodup :=
    List.Nodup.sublist (keys_aerase_sublist _ _) hinv.inflightNodup
  have hSettled : s.settled.map Prod.fst ++ [task.tid] = startTids s.trace := by
    have := hinv.settledTrace
    rw [hr] at this
    simpa using this
  rcases hq : s.summaryQueue with _ | ⟨hd, rest⟩
  · rw [completeStep_emptyQ s task r p fb hr hq]
    refine ⟨rfl, fun _ => hq, ?_, ?_, ?_, hNodup, hLogged, ?_⟩
    · rw [startTids_append, hinv.fifo, hq]
      simp [startTids]
    · have halt : Alt s.trace (some task.tid) := by
        have := hinv.alt
        rw [hr] at this
        exact this
      simpa using Alt.push_settle s.trace task.tid (exceptOk r) halt
    · rw [startTids_append]
      simp [startTids, hSettled]
    · intro task' htask'
      rcases htask' with htask' | htask'
      · rw [hq] at htask'
        simp at htask'
      · cases htask'
  · rw [completeStep_nextQ s task hd rest r p fb hr hq]
    have hTidMem : task.tid ∈ startTids s.trace := by
      rw [← hSettled]
      exact List.mem_append_right _ (by simp)
    have hDisj : (startTids s.trace).Disjoint ((hd :: rest).map QTask.tid) := by
      have hnd : (startTids s.trace ++ (hd :: rest).map QTask.tid).Nodup := by
        rw [← hq, ← hinv.fifo]
        exact List.nodup_range _
      exact (List.nodup_append.mp hnd).2.2
    have hNe : ∀ task' : QTask, task' ∈ hd :: rest → task'.id ≠ task.id := by
      intro task' hmem he
      have hold : alookup s.inFlightSummaries task'.id = some task'.tid :=
        hinv.tasksRegistered task' (Or.inl (by rw [hq]; exact hmem))
      have holdRun : alookup s.inFlightSummaries task.id = some task.tid :=
        hinv.tasksRegistered task (Or.inr hr)
      rw [he, holdRun] at hold
      have htid : task.tid = task'.tid := by simpa using hold
      exact hDisj hTidMem (htid ▸ List.mem_map_of_mem QTask.tid hmem)
    refine ⟨rfl, ?_, ?_, ?_, ?_, hNodup, hLogged, ?_⟩
    · intro hfalse
      cases hfalse
    · rw [startTids_append, hinv.fifo, hq]
      simp [startTids]
    · have halt : Alt s.trace (some task.tid) := by
        have := hinv.alt
        rw [hr] at this
        exact this
      have a1 := Alt.push_settle s.trace task.tid (exceptOk r) halt
      have a2 := Alt.push_start _ hd.tid a1
      simpa using a2
    · rw [startTids_append]
      simp only [List.map_append, Option.map_some', Option.toList_some]
      simp [startTids, hSettled]
    · intro task' htask'
      have hmem : task' ∈ hd :: rest := by
        rcases htask' with htask' | htask'
        · exact List.mem_cons_of_mem _ htask'
        · simp only [Option.some.injEq] at htask'
          subst htask'
          exact List.mem_cons_self _ _
      rw [alookup_aerase_ne _ _ _ (hNe task' hmem)]
      exact hinv.tasksRegistered task' (Or.inl (by rw [hq]; exact hmem))

theorem inv_stepEv (s : Sys) (e : Ev) (hinv : Inv s) : Inv (stepEv s e) := by
  cases e with
  | request id => exact inv_requestStep s id hinv
  | complete r p fb => exact inv_completeStep s r p fb hinv

theorem inv_runEvents (es : List Ev) : ∀ s : Sys, Inv s → Inv (runEvents s es) := by
  induction es with
  | nil => exact fun s h => h
  | cons e rest ih =>
    intro s h
    exact ih (stepEv s e) (inv_stepEv s e h)

/-- The invariant holds in every reachable state. -/
theorem inv_reachable (stored : Option (List (String × String))) (readOk : Bool)
    (es : List Ev) : Inv (runEvents (initSys stored readOk) es) :=
  inv_runEvents es _ (inv_initSys stored readOk)

/-- Each task's backend call starts at most once. -/
theorem inv_starts_nodup (s : Sys) (hinv : Inv s) : (startTids s.trace).Nodup := by
  have h := List.nodup_range s.nextTid
  rw [hinv.fifo] at h
  exact (List.nodup_append.mp h).1

/-- Each task settles at most once. -/
theorem inv_settled_nodup (s : Sys) (hinv : Inv s) : (s.settled.map Prod.fst).Nodup := by
  have h := inv_starts_nodup s hinv
  rw [← hinv.settledTrace] at h
  exact (List.nodup_append.mp h).1

theorem enqueueSummaryTask_nextTid (s : Sys) (t : QTask) :
    (enqueueSummaryTask s t).nextTid = s.nextTid := by
  rw [enqueueSummaryTask, processSummaryQueue_nextTid]

theorem enqueueSummaryTask_log (s : Sys) (t : QTask) :
    (enqueueSummaryTask s t).log = s.log := by
  rw [enqueueSummaryTask, processSummaryQueue_log]

/-- **C1** counterexample: the claim asserts that when two concurrent
`summarize` calls share one pending task, exactly one backend call is
made and both callers receive the same result, explicitly including
the failure case.  But when the shared task fails, each awaiting
caller's outer `catch` (source lines 1399-1403) issues its own direct
uncached backend call: on the concrete run with two callers for `"a"`
and a failing task whose two fallback calls return `"r1"` and `"r2"`,
one queued call plus two fallback calls are made (three backend calls)
and the two callers receive different results. -/
theorem c1_counterexample :
    ((runEvents (initSys none true)
        [Ev.request "a", Ev.request "a",
         Ev.complete (Except.error "boom") true
           (fun i => if i = 0 then Except.ok "r1" else Except.ok "r2")]).delivered
      = [("a", Except.ok "r1"), ("a", Except.ok "r2")]) ∧
    ((runEvents (initSys none true)
        [Ev.request "a", Ev.request "a",
         Ev.complete (Except.error "boom") true
           (fun i => if i = 0 then Except.ok "r1" else Except.ok "r2")]).fallbackCalls
      = [(0, Except.ok "r1"), (0, Except.ok "r2")]) ∧
    (startTids (runEvents (initSys none true)
        [Ev.request "a", Ev.request "a",
         Ev.complete (Except.error "boom") true
           (fun i => if i = 0 then Except.ok "r1" else Except.ok "r2")]).trace
      = [0]) := by decide

/-- **C1** amended: for every item key `k`, at most one task for `k` is
outstanding at any time, and a `summarize` invocation arriving while a
previous one for `k` is pending awaits that invocation's pending task
without enqueueing a new task, so exactly one queued backend call is
made; the in-flight registration for `k` is removed when the task
settles, whether it succeeds or fails.  If the task succeeds, no
further backend call is made and every awaiting caller receives the
same result (the task's value).  If the task fails, each awaiting
caller instead issues one direct uncached fallback backend call and
returns that call's own result, so the callers may receive different
results and, with `N` awaiting callers, `1 + N` backend calls occur. -/
theorem c1_single_flight (stored : Option (List (String × String))) (readOk : Bool)
    (es : List Ev) (k : String) (s : Sys)
    (hs : s = runEvents (initSys stored readOk) es) :
    ((s.inFlightSummaries.map Prod.fst).Nodup) ∧
    (∀ t, getCachedSummary s.summaryCache k = none →
      alookup s.inFlightSummaries k = some t →
      requestStep s k = { s with log := s.log ++ [(k, Outcome.awaits t)] } ∧
      (k, Outcome.awaits t) ∈ s.log) ∧
    ((startTids s.trace).Nodup) ∧
    (∀ t r1 r2, (t, r1) ∈ s.settled → (t, r2) ∈ s.settled → r1 = r2) ∧
    (∀ task r p fb, s.running = some task →
      alookup (completeStep s r p fb).inFlightSummaries task.id = none) ∧
    (∀ task v p fb, s.running = some task →
      (completeStep s (Except.ok v) p fb).fallbackCalls = s.fallbackCalls ∧
      (completeStep s (Except.ok v) p fb).delivered
        = s.delivered
          ++ (awaitingCallers s.log task.tid).map (fun k' => (k', Except.ok v))) ∧
    (∀ task msg p fb, s.running = some task →
      (completeStep s (Except.error msg) p fb).fallbackCalls
        = s.fallbackCalls
          ++ (awaitingCallers s.log task.tid).enum.map (fun q => (task.tid, fb q.1)) ∧
      (completeStep s (Except.error msg) p fb).delivered
        = s.delivered
          ++ (awaitingCallers s.log task.tid).enum.map (fun q => (q.2, fb q.1)) ∧
      (completeStep s (Except.error msg) p fb).summaryCache = s.summaryCache) := by
  subst hs
  have hinv := inv_reachable stored readOk es
  refine ⟨hinv.inflightNodup, ?_, inv_starts_nodup _ hinv, ?_, ?_, ?_, ?_⟩
  · intro t hc hi
    exact ⟨requestStep_inFlight _ k t hc hi, hinv.inflightLogged k t hi⟩
  · intro t r1 r2 h1 h2
    exact mem_assoc_functional _ (inv_settled_nodup _ hinv) t r1 r2 h1 h2
  · intro task r p fb hr
    rcases hq : (runEvents (initSys stored readOk) es).summaryQueue with _ | ⟨hd, rest⟩
    · rw [completeStep_emptyQ _ task r p fb hr hq]
      exact alookup_aerase_self _ _
    · rw [completeStep_nextQ _ task hd rest r p fb hr hq]
      exact alookup_aerase_self _ _
  · intro task v p fb hr
    rcases hq : (runEvents (initSys stored readOk) es).summaryQueue with _ | ⟨hd, rest⟩
    · rw [completeStep_emptyQ _ task (Except.ok v) p fb hr hq]
      exact ⟨by simp [fallbackFor], by simp [deliveredFor]⟩
    · rw [completeStep_nextQ _ task hd rest (Except.ok v) p fb hr hq]
      exact ⟨by simp [fallbackFor], by simp [deliveredFor]⟩
  · intro task msg p fb hr
    rcases hq : (runEvents (initSys stored readOk) es).summaryQueue with _ | ⟨hd, rest⟩
    · rw [completeStep_emptyQ _ task (Except.error msg) p fb hr hq]
      exact ⟨by simp [fallbackFor], by simp [deliveredFor], by simp [applyResult]⟩
    · rw [completeStep_nextQ _ task hd rest (Except.error msg) p fb hr hq]
      exact ⟨by simp [fallbackFor], by simp [deliveredFor], by simp [applyResult]⟩

/-- Witness for the amended C1: two concurrent `summarize` calls for
key `"a"`; the second finds `"a"` in flight with tid 0 and changes
nothing but the log; on success both callers receive the task's value
with no fallback call; on failure the registration is removed and
each caller gets its own fallback result. -/
theorem c1_single_flight_witness :
    (requestStep (runEvents (initSys none true) [Ev.request "a", Ev.request "a"]) "a"
      = { runEvents (initSys none true) [Ev.request "a", Ev.request "a"] with
          log := (runEvents (initSys none true) [Ev.request "a", Ev.request "a"]).log
            ++ [("a", Outcome.awaits 0)] } ∧
      ("a", Outcome.awaits 0)
        ∈ (runEvents (initSys none true) [Ev.request "a", Ev.request "a"]).log) ∧
    alookup (completeStep (runEvents (initSys none true) [Ev.request "a", Ev.request "a"])
      (Except.error "boom") true (fun _ => Except.ok "f")).inFlightSummaries "a"
      = none ∧
    (completeStep (runEvents (initSys none true) [Ev.request "a", Ev.request "a"])
      (Except.ok "v") true (fun _ => Except.ok "f")).delivered
      = (runEvents (initSys none true) [Ev.request "a", Ev.request "a"]).delivered
        ++ (awaitingCallers
              (runEvents (initSys none true) [Ev.request "a", Ev.request "a"]).log 0).map
            (fun k' => (k', Except.ok "v")) := by
  have h := c1_single_flight none true [Ev.request "a", Ev.request "a"] "a" _ rfl
  exact ⟨h.2.1 0 (by decide) (by decide),
    h.2.2.2.2.1 ⟨0, "a"⟩ (Except.error "boom") true (fun _ => Except.ok "f") (by decide),
    (h.2.2.2.2.2.1 ⟨0, "a"⟩ "v" true (fun _ => Except.ok "f") (by decide)).2⟩

/-- **C2**: queued tasks run strictly one at a time in FIFO enqueue
order — the started tids followed by the queued tids are the created
tids in creation order, the trace alternates start/settle so task N+1
never starts before task N settles, the runner is never idle with
queued tasks, and after a task fails the runner still reports the
failure to its caller and proceeds directly to the next queued task. -/
theorem c2_fifo_serial (stored : Option (List (String × String))) (readOk : Bool)
    (es : List Ev) (s : Sys)
    (hs : s = runEvents (initSys stored readOk) es) :
    (startTids s.trace ++ s.summaryQueue.map QTask.tid = List.range s.nextTid) ∧
    (Alt s.trace (Option.map QTask.tid s.running)) ∧
    (∀ u a v b w, s.trace = u ++ TEv.start a :: v ++ TEv.start b :: w →
      ∃ ok, TEv.settle a ok ∈ v) ∧
    (s.isProcessingSummaryQueue = false → s.summaryQueue = []) ∧
    (∀ task msg p fb hd rest, s.running = some task → s.summaryQueue = hd :: rest →
      (completeStep s (Except.error msg) p fb).running = some hd ∧
      (completeStep s (Except.error msg) p fb).summaryQueue = rest ∧
      (completeStep s (Except.error msg) p fb).trace
        = s.trace ++ [TEv.settle task.tid false, TEv.start hd.tid] ∧
      (completeStep s (Except.error msg) p fb).settled
        = s.settled ++ [(task.tid, Except.error msg)]) := by
  subst hs
  have hinv := inv_reachable stored readOk es
  refine ⟨hinv.fifo.symm, hinv.alt, ?_, hinv.idle, ?_⟩
  · intro u a v b w h
    exact alt_settle_between _ _ hinv.alt u a v b w h
  · intro task msg p fb hd rest hr hq
    rw [completeStep_nextQ _ task hd rest (Except.error msg) p fb hr hq]
    exact ⟨rfl, rfl, rfl, rfl⟩

/-- Witness for C2: three tasks enqueued in order a, b, c; after a
fails, the settle of task 0 lies between the starts of tasks 0 and 1,
and failing task 1 makes the runner move straight on to task 2. -/
theorem c2_fifo_serial_witness :
    (∃ ok, TEv.settle 0 ok ∈ [TEv.settle 0 false]) ∧
    (completeStep (runEvents (initSys none true)
        [Ev.request "a", Ev.request "b", Ev.request "c",
         Ev.complete (Except.error "e1") true (fun _ => Except.ok "f1")])
        (Except.error "e2") true (fun _ => Except.ok "f2")).running
      = some ⟨2, "c"⟩ ∧
    (completeStep (runEvents (initSys none true)
        [Ev.request "a", Ev.request "b", Ev.request "c",
         Ev.complete (Except.error "e1") true (fun _ => Except.ok "f1")])
        (Except.error "e2") true (fun _ => Except.ok "f2")).trace
      = (runEvents (initSys none true)
          [Ev.request "a", Ev.request "b", Ev.request "c",
           Ev.complete (Except.error "e1") true (fun _ => Except.ok "f1")]).trace
        ++ [TEv.settle 1 false, TEv.start 2] := by
  have h := c2_fifo_serial none true
    [Ev.request "a", Ev.request "b", Ev.request "c",
     Ev.complete (Except.error "e1") true (fun _ => Except.ok "f1")] _ rfl
  have happ := h.2.2.2.2 ⟨1, "b"⟩ "e2" true (fun _ => Except.ok "f2") ⟨2, "c"⟩ []
    (by decide) (by decide)
  exact ⟨h.2.2.1 [] 0 [TEv.settle 0 false] 1 [] (by decide), happ.1, happ.2.2.1⟩

/-- **C3** counterexample: the claim says the queue runner inserts at
least 500ms of delay between the settlement of one queued backend call
and the start of the next; but on the run with two enqueued tasks the
settlement of task 0 is immediately followed by the start of task 1 —
the runner's trace contains no `delayEv` at all. -/
theorem c3_counterexample :
    (runEvents (initSys none true)
      [Ev.request "a", Ev.request "b",
       Ev.complete (Except.ok "x") true (fun _ => Except.ok "")]).trace
    = [TEv.start 0, TEv.settle 0 true, TEv.start 1] := by decide

/-- In the multi-loop trace, every queued backend call is immediately
followed either by the 500ms inter-item delay (the task succeeded) or
by that item's direct fallback backend call (the task failed). -/
theorem multi_api_followed (cache : List (String × String))
    (gen fbk : Nat → Except String String) (i : Nat) (emails : List MEmail) :
    ∀ u j v,
      (generateMultiEmailSummaries cache gen fbk i emails).2
        = u ++ MEv.apiCall j :: v →
      (∃ w, v = MEv.delayMs 500 :: w) ∨
      (∃ w, v = MEv.fallbackCall j :: MEv.delayMs 500 :: w) := by
  induction emails generalizing cache i with
  | nil =>
    intro u j v h
    exact absurd h (by simp [generateMultiEmailSummaries])
  | cons e rest ih =>
    intro u j v h
    have hblock : ∀ cache2 : List (String × String),
        (generateMultiEmailSummaries cache2 gen fbk (i + 1) rest).2
          = u ++ MEv.apiCall j :: v →
        (∃ w, v = MEv.delayMs 500 :: w) ∨
        (∃ w, v = MEv.fallbackCall j :: MEv.delayMs 500 :: w) :=
      fun cache2 => ih cache2 (i + 1) u j v
    have hok : ∀ cache2 : List (String × String),
        MEv.apiCall i :: MEv.delayMs 500 ::
            (generateMultiEmailSummaries cache2 gen fbk (i + 1) rest).2
          = u ++ MEv.apiCall j :: v →
        (∃ w, v = MEv.delayMs 500 :: w) ∨
        (∃ w, v = MEv.fallbackCall j :: MEv.delayMs 500 :: w) := by
      intro cache2 h2
      rcases hu : u with _ | ⟨x, u'⟩
      · subst hu
        simp only [List.nil_append, List.cons.injEq] at h2
        exact Or.inl ⟨_, h2.2.symm⟩
      · subst hu
        simp only [List.cons_append, List.cons.injEq] at h2
        rcases hu' : u' with _ | ⟨y, u''⟩
        · subst hu'
          simp only [List.nil_append, List.cons.injEq] at h2
          cases h2.2.1
        · subst hu'
          simp only [List.cons_append, List.cons.injEq] at h2
          exact ih cache2 (i + 1) u'' j v h2.2.2
    have herr :
        MEv.apiCall i :: MEv.fallbackCall i :: MEv.delayMs 500 ::
            (generateMultiEmailSummaries cache gen fbk (i + 1) rest).2
          = u ++ MEv.apiCall j :: v →
        (∃ w, v = MEv.delayMs 500 :: w) ∨
        (∃ w, v = MEv.fallbackCall j :: MEv.delayMs 500 :: w) := by
      intro h2
      rcases hu : u with _ | ⟨x, u'⟩
      · subst hu
        simp only [List.nil_append, List.cons.injEq, MEv.apiCall.injEq] at h2
        obtain ⟨hij, hv⟩ := h2
        subst hij
        exact Or.inr ⟨_, hv.symm⟩
      · subst hu
        simp only [List.cons_append, List.cons.injEq] at h2
        rcases hu' : u' with _ | ⟨y, u''⟩
        · subst hu'
          simp only [List.nil_append, List.cons.injEq] at h2
          cases h2.2.1
        · subst hu'
          simp only [List.cons_append, List.cons.injEq] at h2
          rcases hu'' : u'' with _ | ⟨z, u'''⟩
          · subst hu''
            simp only [List.nil_append, List.cons.injEq] at h2
            cases h2.2.2.1
          · subst hu''
            simp only [List.cons_append, List.cons.injEq] at h2
            exact ih cache (i + 1) u''' j v h2.2.2.2
    rcases hid : e.id with _ | id
    · rcases hg : gen i with msg | sm
      · simp only [generateMultiEmailSummaries, hid, hg] at h
        exact herr h
      · simp only [generateMultiEmailSummaries, hid, hg] at h
        exact hok cache h
    · rcases hcc : getCachedSummary cache id with _ | c
      · rcases hg : gen i with msg | sm
        · simp only [generateMultiEmailSummaries, hid, hcc, hg] at h
          exact herr h
        · simp only [generateMultiEmailSummaries, hid, hcc, hg] at h
          exact hok (aset cache id sm) h
      · simp only [generateMultiEmailSummaries, hid, hcc] at h
        exact hblock cache h

/-- In the multi-loop trace, every direct fallback backend call is
immediately followed by the 500ms inter-item delay. -/
theorem multi_fallback_followed (cache : List (String × String))
    (gen fbk : Nat → Except String String) (i : Nat) (emails : List MEmail) :
    ∀ u j v,
      (generateMultiEmailSummaries cache gen fbk i emails).2
        = u ++ MEv.fallbackCall j :: v →
      ∃ w, v = MEv.delayMs 500 :: w := by
  induction emails generalizing cache i with
  | nil =>
    intro u j v h
    exact absurd h (by simp [generateMultiEmailSummaries])
  | cons e rest ih =>
    intro u j v h
    have hok : ∀ cache2 : List (String × String),
        MEv.apiCall i :: MEv.delayMs 500 ::
            (generateMultiEmailSummaries cache2 gen fbk (i + 1) rest).2
          = u ++ MEv.fallbackCall j :: v →
        ∃ w, v = MEv.delayMs 500 :: w := by
      intro cache2 h2
      rcases hu : u with _ | ⟨x, u'⟩
      · subst hu
        simp only [List.nil_append, List.cons.injEq] at h2
        cases h2.1
      · subst hu
        simp only [List.cons_append, List.cons.injEq] at h2
        rcases hu' : u' with _ | ⟨y, u''⟩
        · subst hu'
          simp only [List.nil_append, List.cons.injEq] at h2
          cases h2.2.1
        · subst hu'
          simp only [List.cons_append, List.cons.injEq] at h2
          exact ih cache2 (i + 1) u'' j v h2.2.2
    have herr :
        MEv.apiCall i :: MEv.fallbackCall i :: MEv.delayMs 500 ::
            (generateMultiEmailSummaries cache gen fbk (i + 1) rest).2
          = u ++ MEv.fallbackCall j :: v →
        ∃ w, v = MEv.delayMs 500 :: w := by
      intro h2
      rcases hu : u with _ | ⟨x, u'⟩
      · subst hu
        simp only [List.nil_append, List.cons.injEq] at h2
        cases h2.1
      · subst hu
        simp only [List.cons_append, List.cons.injEq] at h2
        rcases hu' : u' with _ | ⟨y, u''⟩
        · subst hu'
          simp only [List.nil_append, List.cons.injEq] at h2
          exact ⟨_, h2.2.2.symm⟩
        · subst hu'
          simp only [List.cons_append, List.cons.injEq] at h2
          rcases hu'' : u'' with _ | ⟨z, u'''⟩
          · subst hu''
            simp only [List.nil_append, List.cons.injEq] at h2
            cases h2.2.2.1
          · subst hu''
            simp only [List.cons_append, List.cons.injEq] at h2
            exact ih cache (i + 1) u''' j v h2.2.2.2
    rcases hid : e.id with _ | id
    · rcases hg : gen i with msg | sm
      · simp only [generateMultiEmailSummaries, hid, hg] at h
        exact herr h
      · simp only [generateMultiEmailSummaries, hid, hg] at h
        exact hok cache h
    · rcases hcc : getCachedSummary cache id with _ | c
      · rcases hg : gen i with msg | sm
        · simp only [generateMultiEmailSummaries, hid, hcc, hg] at h
          exact herr h
        · simp only [generateMultiEmailSummaries, hid, hcc, hg] at h
          exact hok (aset cache id sm) h
      · simp only [generateMultiEmailSummaries, hid, hcc] at h
        exact ih cache (i + 1) u j v h

/-- **C3** amended: the queue runner starts the next queued task
immediately when the previous one settles, inserting no delay; the
500ms minimum delay is instead inserted by the multi-email
summarization loop (`generateMultiEmailSummaries`), which awaits
`delay(500)` after each item not served from the cache.  In that
loop's trace every queued backend call is immediately followed either
by the 500ms delay or — when the queued task failed — by that item's
immediate direct uncached fallback backend call, and every fallback
call is immediately followed by the 500ms delay.  So the backend
calls of successive items are separated by at least 500ms, while the
queued call and the fallback call within one failed item are
back-to-back with no delay; cache hits skip both the calls and the
delay. -/
theorem c3_delay_in_multi_loop (cache : List (String × String))
    (gen fbk : Nat → Except String String) (i : Nat) (emails : List MEmail) :
    (∀ u j v,
      (generateMultiEmailSummaries cache gen fbk i emails).2
        = u ++ MEv.apiCall j :: v →
      (∃ w, v = MEv.delayMs 500 :: w) ∨
      (∃ w, v = MEv.fallbackCall j :: MEv.delayMs 500 :: w)) ∧
    (∀ u j v,
      (generateMultiEmailSummaries cache gen fbk i emails).2
        = u ++ MEv.fallbackCall j :: v →
      ∃ w, v = MEv.delayMs 500 :: w) :=
  ⟨multi_api_followed cache gen fbk i emails,
   multi_fallback_followed cache gen fbk i emails⟩

/-- Witness for the amended C3 on a one-email loop whose queued task
fails: the queued call at index 0 is immediately followed by the
fallback call, and the fallback call by the 500ms delay. -/
theorem c3_delay_in_multi_loop_witness :
    ((∃ w, [MEv.fallbackCall 0, MEv.delayMs 500] = MEv.delayMs 500 :: w) ∨
     (∃ w, [MEv.fallbackCall 0, MEv.delayMs 500]
        = MEv.fallbackCall 0 :: MEv.delayMs 500 :: w)) ∧
    (∃ w, [MEv.delayMs 500] = MEv.delayMs 500 :: w) := by
  have h := c3_delay_in_multi_loop [] (fun _ => Except.error "x")
    (fun _ => Except.ok "s") 0 [⟨none, "c", "s", "e", "t"⟩]
  exact ⟨h.1 [] 0 [MEv.fallbackCall 0, MEv.delayMs 500] (by decide),
    h.2 [MEv.apiCall 0] 0 [MEv.delayMs 500] (by decide)⟩

/-- **C4** counterexample: the claim says two sequential `summarize`
calls issue at most one backend call, and that a cache entry for the
key suffices to skip the backend.  But when the first call's summary is
the empty string, `getCachedSummary`'s `|| null` reports the stored
entry as absent: on the run request-"a" / settle with `""` /
request-"a", the cache holds `("a", "")` yet two tasks are started
(tids 0 and 1), i.e. a second backend call is made and the second
caller does not receive the first call's cached value. -/
theorem c4_counterexample :
    (startTids (runEvents (initSys none true)
        [Ev.request "a", Ev.complete (Except.ok "") true (fun _ => Except.ok ""),
         Ev.request "a"]).trace
      = [0, 1]) ∧
    (alookup (runEvents (initSys none true)
        [Ev.request "a", Ev.complete (Except.ok "") true (fun _ => Except.ok ""),
         Ev.request "a"]).summaryCache "a"
      = some "") ∧
    ((runEvents (initSys none true)
        [Ev.request "a", Ev.complete (Except.ok "") true (fun _ => Except.ok ""),
         Ev.request "a"]).log
      = [("a", Outcome.awaits 0), ("a", Outcome.awaits 1)]) := by decide

/-- **C4** amended: when a `summarize` for key `k`'s queued task
settles successfully with a non-empty summary `v`, the cache holds `v`
at `k`, a subsequent sequential `summarize` for `k` is a cache hit
returning the identical string `v`, and it changes nothing but the log
— no new task, no queue activity, no backend call; so the two
sequential calls issue exactly one backend call in total.  When the
queued task fails, nothing is cached — in particular a non-empty
summary delivered to the caller by the wrapper's direct fallback
backend call is never cached — so a second sequential call
regenerates; likewise an empty-string summary, although stored, is
reported absent by the lookup and regenerated. -/
theorem c4_sequential_idempotence (s : Sys) (task : QTask) (v : String) (p : Bool)
    (fb : Nat → Except String String)
    (hrun : s.running = some task) (hne : v ≠ "") :
    alookup (completeStep s (Except.ok v) p fb).summaryCache task.id = some v ∧
    getCachedSummary (completeStep s (Except.ok v) p fb).summaryCache task.id = some v ∧
    requestStep (completeStep s (Except.ok v) p fb) task.id
      = { completeStep s (Except.ok v) p fb with
          log := (completeStep s (Except.ok v) p fb).log
            ++ [(task.id, Outcome.cachedHit v)] } ∧
    (∀ msg, (completeStep s (Except.error msg) p fb).summaryCache = s.summaryCache) := by
  have hcache : alookup (completeStep s (Except.ok v) p fb).summaryCache task.id
      = some v := by
    rcases hq : s.summaryQueue with _ | ⟨hd, rest⟩
    · rw [completeStep_emptyQ s task (Except.ok v) p fb hrun hq]
      cases p <;> simp [applyResult, setCachedSummary, alookup_aset_self]
    · rw [completeStep_nextQ s task hd rest (Except.ok v) p fb hrun hq]
      cases p <;> simp [applyResult, setCachedSummary, alookup_aset_self]
  have hhit : getCachedSummary (completeStep s (Except.ok v) p fb).summaryCache task.id
      = some v := by
    simp [getCachedSummary, hcache, hne]
  refine ⟨hcache, hhit, requestStep_cacheHit _ task.id v hhit, ?_⟩
  intro msg
  rcases hq : s.summaryQueue with _ | ⟨hd, rest⟩
  · rw [completeStep_emptyQ s task (Except.error msg) p fb hrun hq]
    simp [applyResult]
  · rw [completeStep_nextQ s task hd rest (Except.error msg) p fb hrun hq]
    simp [applyResult]

/-- Witness for the amended C4 on a concrete run: after `summarize "a"`
settles with `"v"`, a second call is a pure cache hit; had the task
failed instead, nothing would have been cached. -/
theorem c4_sequential_idempotence_witness :
    alookup (completeStep (runEvents (initSys none true) [Ev.request "a"])
      (Except.ok "v") true (fun _ => Except.ok "f")).summaryCache "a" = some "v" ∧
    getCachedSummary (completeStep (runEvents (initSys none true) [Ev.request "a"])
      (Except.ok "v") true (fun _ => Except.ok "f")).summaryCache "a" = some "v" ∧
    (completeStep (runEvents (initSys none true) [Ev.request "a"])
      (Except.error "boom") true (fun _ => Except.ok "f")).summaryCache
      = (runEvents (initSys none true) [Ev.request "a"]).summaryCache := by
  have h := c4_sequential_idempotence (runEvents (initSys none true) [Ev.request "a"])
    ⟨0, "a"⟩ "v" true (fun _ => Except.ok "f") (by decide) (by decide)
  exact ⟨h.1, h.2.1, h.2.2.2 "boom"⟩

/-- **C5** counterexample: the claim says a non-empty `explicitId` is
returned prefixed with `mid:`; but `computeSummaryId` (line 1451)
returns it verbatim with no prefix. -/
theorem c5_counterexample :
    computeSummaryId ⟨"", ""⟩ (some "abc123") "Subj" "Body" "tm" = "abc123" ∧
    computeSummaryId ⟨"", ""⟩ (some "abc123") "Subj" "Body" "tm" ≠ "mid:" ++ "abc123" := by
  decide

/-- **C5** amended: for every call with a non-empty string `explicitId`,
the returned key is `explicitId` verbatim, with no prefix added (call
sites pass ids that already carry their `mid:`/`hash:` prefix, e.g.
from `computeRowEmailId`). -/
theorem c5_explicit_id_verbatim (dom : DOMSnapshot) (e subject body time : String)
    (h : e ≠ "") :
    computeSummaryId dom (some e) subject body time = e := by
  simp [computeSummaryId, h]

/-- Witness for the amended C5. -/
theorem c5_explicit_id_verbatim_witness :
    computeSummaryId ⟨"", ""⟩ (some "mid:xyz") "S" "B" "T" = "mid:xyz" :=
  c5_explicit_id_verbatim ⟨"", ""⟩ "mid:xyz" "S" "B" "T" (by decide)

/-- **C6** counterexample: the claim says a missing timestamp is
treated as the empty string in the hashed composite; but with
`time = ""` and an open-email time visible in the DOM,
`computeSummaryId` hashes the DOM-derived time instead, so the key
differs from the claim's prescribed
`hash:` + SHA-256(subject + "|" + "" + "|" + body-prefix). -/
theorem c6_counterexample :
    computeSummaryId ⟨"", "10:15 AM"⟩ none "Meeting" "Body" ""
      ≠ "hash:" ++ computeSHA256Hex ("Meeting" ++ "|" ++ "" ++ "|" ++ "Body") := by
  decide

/-- **C6** amended: with no explicit id and no DOM-exposed message id,
the key is `hash:` followed by the 64-character lowercase hex SHA-256
of `subject + "|" + t + "|" + first-50-characters-of-body`, where a
missing subject or body is the empty string but `t` is the `time`
argument if non-empty and otherwise falls back to the DOM-extracted
open-email time (empty when none is available). -/
theorem c6_hash_key (dom : DOMSnapshot) (subject body time : String)
    (hmid : dom.openMessageId = "") :
    computeSummaryId dom none subject body time
      = "hash:" ++ computeSHA256Hex (subject ++ "|"
          ++ (if time = "" then dom.openTime else time) ++ "|"
          ++ String.mk (body.data.take 50)) ∧
    (computeSHA256Hex (subject ++ "|"
          ++ (if time = "" then dom.openTime else time) ++ "|"
          ++ String.mk (body.data.take 50))).length = 64 := by
  refine ⟨?_, computeSHA256Hex_length _⟩
  simp [computeSummaryId, computeSummaryId.computeSummaryIdNoExplicit, hmid]

/-- Witness for the amended C6 at a concrete input with a DOM time
fallback. -/
theorem c6_hash_key_witness :
    computeSummaryId ⟨"", "10:15 AM"⟩ none "Meeting" "Body" ""
      = "hash:" ++ computeSHA256Hex ("Meeting" ++ "|"
          ++ (if "" = "" then "10:15 AM" else "") ++ "|"
          ++ String.mk ("Body".data.take 50)) ∧
    (computeSHA256Hex ("Meeting" ++ "|"
          ++ (if "" = "" then "10:15 AM" else "") ++ "|"
          ++ String.mk ("Body".data.take 50))).length = 64 :=
  c6_hash_key ⟨"", "10:15 AM"⟩ "Meeting" "Body" "" (by decide)

/-- **C7** counterexample: the claim says the key computation never
consults page-global DOM state; but two calls with identical arguments
under different DOM snapshots (different open-message ids) return
different keys. -/
theorem c7_counterexample :
    computeSummaryId ⟨"m1", ""⟩ none "S" "B" "t" = "mid:m1" ∧
    computeSummaryId ⟨"m2", ""⟩ none "S" "B" "t" = "mid:m2" ∧
    computeSummaryId ⟨"m1", ""⟩ none "S" "B" "t"
      ≠ computeSummaryId ⟨"m2", ""⟩ none "S" "B" "t" := by
  decide

/-- **C7** amended: the key computation is a pure, deterministic
function of its arguments together with the page-global DOM snapshot
(open message id and open-email time); it performs no network or
storage access.  It is independent of the DOM whenever `explicitId` is
a non-empty string, and also — with no explicit id — whenever the two
snapshots expose the same message id and the `time` argument is
non-empty. -/
theorem c7_key_determinism (dom1 dom2 : DOMSnapshot) (e subject body time : String) :
    (e ≠ "" → computeSummaryId dom1 (some e) subject body time
      = computeSummaryId dom2 (some e) subject body time) ∧
    (dom1.openMessageId = dom2.openMessageId → time ≠ "" →
      computeSummaryId dom1 none subject body time
        = computeSummaryId dom2 none subject body time) := by
  constructor
  · intro h
    simp [computeSummaryId, h]
  · intro hm ht
    by_cases hmid : dom1.openMessageId = ""
    · simp [computeSummaryId, computeSummaryId.computeSummaryIdNoExplicit,
        hmid, ← hm, ht]
    · simp [computeSummaryId, computeSummaryId.computeSummaryIdNoExplicit,
        hmid, ← hm]

/-- Witness for the amended C7. -/
theorem c7_key_determinism_witness :
    computeSummaryId ⟨"mA", "t1"⟩ (some "k9") "S" "B" "T"
      = computeSummaryId ⟨"mB", "t2"⟩ (some "k9") "S" "B" "T" ∧
    computeSummaryId ⟨"", "t1"⟩ none "S" "B" "T"
      = computeSummaryId ⟨"", "t2"⟩ none "S" "B" "T" := by
  have h1 := c7_key_determinism ⟨"mA", "t1"⟩ ⟨"mB", "t2"⟩ "k9" "S" "B" "T"
  have h2 := c7_key_determinism ⟨"", "t1"⟩ ⟨"", "t2"⟩ "k9" "S" "B" "T"
  exact ⟨h1.1 (by decide), h2.2 (by decide) (by decide)⟩

/-- **C8**: the backend client returns a (trimmed) text string exactly
when the HTTP call succeeds with a 2xx status and the response carries
non-empty generated content; it fails exactly on network failure, on a
non-2xx status, or when the extracted content is absent or empty; and
it performs exactly one fetch, never retrying internally. -/
theorem c8_backend_contract :
    (∀ m, callGeminiAPI (FetchResult.netError m) = Except.error m) ∧
    (∀ status text, ¬ (200 ≤ status ∧ status ≤ 299) →
      callGeminiAPI (FetchResult.response status text)
        = Except.error ("API error: " ++ toString status)) ∧
    (∀ status, 200 ≤ status → status ≤ 299 →
      callGeminiAPI (FetchResult.response status none)
        = Except.error "No content generated" ∧
      callGeminiAPI (FetchResult.response status (some ""))
        = Except.error "No content generated") ∧
    (∀ status g, 200 ≤ status → status ≤ 299 → g ≠ "" →
      callGeminiAPI (FetchResult.response status (some g)) = Except.ok g.trim) ∧
    (∀ fetchOracle, (callGeminiAPIFetchCount fetchOracle).2 = 1 ∧
      (callGeminiAPIFetchCount fetchOracle).1 = callGeminiAPI (fetchOracle 0)) := by
  refine ⟨fun m => rfl, ?_, ?_, ?_, fun fo => ⟨rfl, rfl⟩⟩
  · intro status text h
    simp [callGeminiAPI, h]
  · intro status h1 h2
    constructor <;> simp [callGeminiAPI, h1, h2]
  · intro status g h1 h2 hg
    simp [callGeminiAPI, h1, h2, hg]

/-- Witness for C8 across the four outcome classes. -/
theorem c8_backend_contract_witness :
    callGeminiAPI (FetchResult.netError "down") = Except.error "down" ∧
    callGeminiAPI (FetchResult.response 500 (some "x"))
      = Except.error ("API error: " ++ toString 500) ∧
    callGeminiAPI (FetchResult.response 200 none) = Except.error "No content generated" ∧
    callGeminiAPI (FetchResult.response 200 (some " hi ")) = Except.ok " hi ".trim := by
  have h := c8_backend_contract
  exact ⟨h.1 "down", h.2.1 500 (some "x") (by decide),
    (h.2.2.1 200 (by decide) (by decide)).1,
    h.2.2.2.1 200 " hi " (by decide) (by decide) (by decide)⟩

/-- **C9**: persistent-storage failure never fails the caller — a
failed persistence leaves the entry in the in-memory cache (where a
later lookup finds it) and the task still settles with the
backend-generated string; and a missing or unreadable storage slot
loads as an empty in-memory cache rather than an error. -/
theorem c9_storage_resilience :
    (loadSummaryCache none true = []) ∧
    (∀ stored, loadSummaryCache stored false = []) ∧
    (∀ cache slot id v, setCachedSummary cache slot false id v = (aset cache id v, slot)) ∧
    (∀ cache slot id v, v ≠ "" →
      getCachedSummary (setCachedSummary cache slot false id v).1 id = some v) ∧
    (∀ s : Sys, ∀ task v fb, s.running = some task →
      (completeStep s (Except.ok v) false fb).settled
        = s.settled ++ [(task.tid, Except.ok v)] ∧
      alookup (completeStep s (Except.ok v) false fb).summaryCache task.id = some v) := by
  refine ⟨rfl, fun stored => rfl, fun cache slot id v => rfl, ?_, ?_⟩
  · intro cache slot id v hv
    simp [setCachedSummary, getCachedSummary, alookup_aset_self, hv]
  · intro s task v fb hr
    rcases hq : s.summaryQueue with _ | ⟨hd, rest⟩
    · rw [completeStep_emptyQ s task (Except.ok v) false fb hr hq]
      exact ⟨rfl, by simp [applyResult, setCachedSummary, alookup_aset_self]⟩
    · rw [completeStep_nextQ s task hd rest (Except.ok v) false fb hr hq]
      exact ⟨rfl, by simp [applyResult, setCachedSummary, alookup_aset_self]⟩

/-- Witness for C9: a persistence failure on the concrete one-request
run still delivers the summary and caches it in memory. -/
theorem c9_storage_resilience_witness :
    getCachedSummary (setCachedSummary [] (some []) false "k" "v").1 "k" = some "v" ∧
    (completeStep (runEvents (initSys none true) [Ev.request "a"])
      (Except.ok "v") false (fun _ => Except.ok "f")).settled = [(0, Except.ok "v")] ∧
    alookup (completeStep (runEvents (initSys none true) [Ev.request "a"])
      (Except.ok "v") false (fun _ => Except.ok "f")).summaryCache "a" = some "v" := by
  have h := c9_storage_resilience
  have h5 := h.2.2.2.2 (runEvents (initSys none true) [Ev.request "a"]) ⟨0, "a"⟩ "v"
    (fun _ => Except.ok "f") (by decide)
  exact ⟨h.2.2.2.1 [] (some []) "k" "v" (by decide),
    by rw [h5.1]; decide, h5.2⟩

/-- **C10**: an empty string stored in the cache is reported as absent
by the lookup (`get(id) || null`), the cache-hit path therefore never
yields an empty string, and a `summarize` arriving with an
empty-string cache entry (and no in-flight task) regenerates: it
creates a fresh task instead of returning the entry. -/
theorem c10_empty_cache_miss :
    (∀ cache k, alookup cache k = some "" → getCachedSummary cache k = none) ∧
    (∀ cache k v, getCachedSummary cache k = some v → v ≠ "") ∧
    (∀ s : Sys, ∀ k, alookup s.summaryCache k = some "" →
      alookup s.inFlightSummaries k = none →
      (requestStep s k).nextTid = s.nextTid + 1 ∧
      (requestStep s k).log = s.log ++ [(k, Outcome.awaits s.nextTid)]) := by
  refine ⟨?_, ?_, ?_⟩
  · intro cache k h
    simp [getCachedSummary, h]
  · intro cache k v h
    rcases ha : alookup cache k with _ | w
    · simp [getCachedSummary, ha] at h
    · by_cases hw : w = ""
      · simp [getCachedSummary, ha, hw] at h
      · simp only [getCachedSummary, ha, hw, if_false, Option.some.injEq] at h
        rw [← h]
        exact hw
  · intro s k hsome hin
    have hc : getCachedSummary s.summaryCache k = none := by
      simp [getCachedSummary, hsome]
    simp only [requestStep, hc, hin]
    exact ⟨by rw [enqueueSummaryTask_nextTid], by rw [enqueueSummaryTask_log]⟩

/-- Witness for C10 at a concrete state holding `("a", "")`. -/
theorem c10_empty_cache_miss_witness :
    getCachedSummary [("a", "")] "a" = none ∧
    (requestStep (runEvents (initSys (some [("a", "")]) true) []) "a").nextTid = 1 ∧
    (requestStep (runEvents (initSys (some [("a", "")]) true) []) "a").log
      = [("a", Outcome.awaits 0)] := by
  have h := c10_empty_cache_miss
  have h3 := h.2.2 (runEvents (initSys (some [("a", "")]) true) []) "a"
    (by decide) (by decide)
  exact ⟨h.1 [("a", "")] "a" (by decide), h3.1, by rw [h3.2]; decide⟩

end MailMind
